import Mathlib

set_option maxRecDepth 8000

/-!
Shallow embedding of the dependency-scanner repository
(`src/dependency_scanner.py` and `src/dependency_scanner_multi_repo.py`).

Python strings that may be `None` are modelled as `Option String`;
Python truthiness of such a value is `optTruthy`.  An XML document as
`xml.etree.ElementTree` exposes it is modelled by `XElem`: a tag (local
name, the fixed Maven namespace elided uniformly), optional text and a
list of children — an element with no text has `text = none`, exactly as
`ElementTree` reports it.  File access is modelled by `FileAccess`
(missing file / permission denied / readable data), and each parser
returns `Except PyExc (List String × List DepRecord)`: the `.error` side
is an exception escaping the parser, the `List String` the diagnostics
the function prints.
-/

/-- A dependency record as the Python dicts `{'groupId': …, 'artifactId': …,
'version': …}` hold it; every field is a Python string or `None`. -/
structure DepRecord where
  groupId : Option String
  artifactId : Option String
  version : Option String
deriving Repr, DecidableEq

/-- An XML element as `xml.etree.ElementTree` exposes it: local tag name,
optional text, children in document order. -/
inductive XElem where
  | mk (tag : String) (text : Option String) (children : List XElem)

def XElem.tag : XElem → String
  | .mk t _ _ => t

def XElem.text : XElem → Option String
  | .mk _ tx _ => tx

def XElem.children : XElem → List XElem
  | .mk _ _ cs => cs

/-- `Element.find(tag)`: the first direct child with the given tag. -/
def findChild (e : XElem) (t : String) : Option XElem :=
  e.children.find? (fun c => c.tag == t)

/-- Python truthiness of a `str`-or-`None` value: `None` and `""` are falsy. -/
def optTruthy : Option String → Bool
  | none => false
  | some s => !s.isEmpty

/-- A Python `dict` built by repeated assignment, keyed by strings; a later
assignment to the same key overwrites the earlier one. -/
abbrev PropTable := List (String × Option String)

/-- `d[k] = v` on a dict: the key's earlier binding, if any, is replaced. -/
def dictInsert (d : PropTable) (k : String) (v : Option String) : PropTable :=
  (d.filter (fun p => p.1 ≠ k)).append [(k, v)]

/-- `d.get(k)`: `some v` when the key is present (its stored value `v` may
itself be `None`), `none` when the key is absent. -/
def dictGet (d : PropTable) (k : String) : Option (Option String) :=
  (d.find? (fun p => p.1 == k)).map (fun p => p.2)

/-- The properties table `parse_maven_pom` builds: each child of the
`properties` block contributes `{localName: textContent}` (namespace
prefixes are already elided from tags in this model). -/
def buildProps (root : XElem) : PropTable :=
  match findChild root "properties" with
  | none => []
  | some pn => pn.children.foldl (fun d p => dictInsert d p.tag p.text) []

/-- `parent_version` of `parse_maven_pom`: the text of `parent/version`
when that chain of elements exists, `None` otherwise. -/
def parentVersionOf (root : XElem) : Option String :=
  match findChild root "parent" with
  | none => none
  | some p =>
    match findChild p "version" with
    | none => none
    | some v => v.text

/-- The `${…}` opener, written with escaped braces. -/
def propRefOpen : String := "$\x7b"

/-- The `${…}` closer. -/
def propRefClose : String := "\x7d"

/-- Python `s.startswith(pre)`. -/
def pyStartsWith (s pre : String) : Bool := pre.toList.isPrefixOf s.toList

/-- Python `s.endswith(suf)`. -/
def pyEndsWith (s suf : String) : Bool :=
  suf.toList.reverse.isPrefixOf s.toList.reverse

/-- Python `s[2:-1]`. -/
def sliceTwoToLast (s : String) : String := String.mk ((s.toList.drop 2).dropLast)

/-- The version-resolution logic of `parse_maven_pom` (lines 53–64): the
value of `resolved_version` just before the `'N/A'` fallback. -/
def resolveVersion (props : PropTable) (parentVersion : Option String)
    (dep : XElem) : Option String :=
  match findChild dep "version" with
  | some v =>
    match v.text with
    | none => none
    | some s =>
      if !s.isEmpty && pyStartsWith s propRefOpen && pyEndsWith s propRefClose then
        match dictGet props (sliceTwoToLast s) with
        | some stored => stored
        | none => some "UNKNOWN"
      else some s
  | none => if optTruthy parentVersion then parentVersion else none

/-- `resolved_version if resolved_version else 'N/A'`. -/
def finalizeVersion (rv : Option String) : String :=
  match rv with
  | some s => if s.isEmpty then "N/A" else s
  | none => "N/A"

/-- One iteration of `parse_maven_pom`'s dependency loop: `none` when
`groupId` or `artifactId` is absent (no record appended). -/
def depRecordOf (props : PropTable) (pv : Option String) (dep : XElem) :
    Option DepRecord :=
  match findChild dep "groupId", findChild dep "artifactId" with
  | some g, some a => some ⟨g.text, a.text, some (finalizeVersion (resolveVersion props pv dep))⟩
  | some _, none => none
  | none, _ => none

/-- The dependency elements `parse_maven_pom` walks: `dependency` children
of the root's direct `dependencies` child. -/
def depsOfMaven (root : XElem) : List XElem :=
  match findChild root "dependencies" with
  | none => []
  | some dn => dn.children.filter (fun c => c.tag == "dependency")

/-- `parse_maven_pom` applied to a successfully parsed document root. -/
def parseMavenPomRoot (root : XElem) : List DepRecord :=
  (depsOfMaven root).filterMap (depRecordOf (buildProps root) (parentVersionOf root))

/-- All descendants of the elements of a list, in document order. -/
def descList : List XElem → List XElem
  | [] => []
  | .mk t tx cs :: rest => .mk t tx cs :: (descList cs ++ descList rest)

/-- The elements `root.findall(".//mvn:dependencies/mvn:dependency")`
returns: for each descendant `dependencies` element in document order,
its `dependency` children. -/
def depsOfPom (root : XElem) : List XElem :=
  ((descList root.children).filter (fun c => c.tag == "dependencies")).flatMap
    (fun dn => dn.children.filter (fun c => c.tag == "dependency"))

/-- The version field `parse_pom` stores: `version.text if version is not
None else "N/A"` — the element's text verbatim, no resolution at all. -/
def pomVersionOf (dep : XElem) : Option String :=
  match findChild dep "version" with
  | some v => v.text
  | none => some "N/A"

/-- One iteration of `parse_pom`'s dependency loop. -/
def pomDepRecordOf (dep : XElem) : Option DepRecord :=
  match findChild dep "groupId", findChild dep "artifactId" with
  | some g, some a => some ⟨g.text, a.text, pomVersionOf dep⟩
  | some _, none => none
  | none, _ => none

/-- `parse_pom` of `dependency_scanner_multi_repo.py` applied to a
successfully parsed document root. -/
def parsePomRoot (root : XElem) : List DepRecord :=
  (depsOfPom root).filterMap pomDepRecordOf

/-!
A small backtracking regular-expression engine, used to embed the three
`re` patterns of the repository.  Alternation is ordered and quantifiers
are greedy, as in Python's `re`; the list a match returns is in Python's
backtracking priority order, so its head is the match Python reports.
The engine carries fuel to be structurally total; `fuelFor` dominates the
recursion depth of every evaluation performed in this file.
-/

/-- The character classes the repository's patterns use. -/
inductive CC where
  | coord
  | word
  | space
  | quote
  | spaceQuote
  | notColon
  | notQuote
deriving DecidableEq, Repr

/-- Python `\s` (ASCII). -/
def isPySpace (c : Char) : Bool :=
  c = ' ' || c = '\t' || c = '\n' || c = '\r' || c = '\x0b' || c = '\x0c'

/-- `[a-zA-Z0-9._-]`. -/
def isCoordChar (c : Char) : Bool :=
  c.isAlphanum || c = '.' || c = '_' || c = '-'

/-- Python `\w` (ASCII). -/
def isWordChar (c : Char) : Bool :=
  c.isAlphanum || c = '_'

/-- `['"]`. -/
def isQuoteChar (c : Char) : Bool :=
  c = '\'' || c = '"'

def CC.mem : CC → Char → Bool
  | .coord, c => isCoordChar c
  | .word, c => isWordChar c
  | .space, c => isPySpace c
  | .quote, c => isQuoteChar c
  | .spaceQuote, c => isPySpace c || isQuoteChar c
  | .notColon, c => c ≠ ':'
  | .notQuote, c => !isQuoteChar c

/-- Regular expressions: literals, classes, ordered alternation, greedy
star, capturing groups. -/
inductive RE where
  | eps
  | lit (c : Char)
  | cls (cc : CC)
  | seq (a b : RE)
  | alt (a b : RE)
  | group (idx : Nat) (a : RE)
  | star (a : RE)
deriving Repr

def seqs (l : List RE) : RE := l.foldr RE.seq RE.eps

def altChain (first : RE) (rest : List RE) : RE := rest.foldl RE.alt first

def litStr (s : String) : RE := seqs (s.toList.map RE.lit)

/-- `+` on a character class. -/
def rePlus (cc : CC) : RE := .seq (.cls cc) (.star (.cls cc))

/-- `?`. -/
def reOpt (r : RE) : RE := .alt r .eps

/-- Captured groups along one backtracking path. -/
abbrev Caps := List (Nat × List Char)

/-- `match.group(i)`: `none` when the group did not participate. -/
def capGet (caps : Caps) (i : Nat) : Option String :=
  (List.find? (fun p => p.1 == i) caps).map (fun p => String.mk p.2)

/-- All ways a pattern can match a prefix of `s`, each as (remaining
suffix, captures), in Python's backtracking priority order (ordered
alternation; greedy star, longest first).  A star iteration that consumes
nothing is cut off, as no pattern in this file can loop on empty text. -/
def matchF : Nat → RE → List Char → Caps → List (List Char × Caps)
  | 0, _, _, _ => []
  | Nat.succ fuel, re, s, caps =>
    match re with
    | .eps => [(s, caps)]
    | .lit c =>
      match s with
      | [] => []
      | x :: rest => if x = c then [(rest, caps)] else []
    | .cls cc =>
      match s with
      | [] => []
      | x :: rest => if CC.mem cc x then [(rest, caps)] else []
    | .seq a b => (matchF fuel a s caps).flatMap (fun rc => matchF fuel b rc.1 rc.2)
    | .alt a b => matchF fuel a s caps ++ matchF fuel b s caps
    | .group i a =>
      (matchF fuel a s caps).map
        (fun rc => (rc.1, (i, s.take (s.length - rc.1.length)) :: rc.2))
    | .star a =>
      ((matchF fuel a s caps).filter (fun rc => rc.1.length < s.length)).flatMap
        (fun rc => matchF fuel (.star a) rc.1 rc.2) ++ [(s, caps)]

def reSize : RE → Nat
  | .eps => 1
  | .lit _ => 1
  | .cls _ => 1
  | .seq a b => reSize a + reSize b + 1
  | .alt a b => reSize a + reSize b + 1
  | .group _ a => reSize a + 1
  | .star a => reSize a + 1

/-- Fuel that dominates the recursion depth of `matchF` on `s`. -/
def fuelFor (re : RE) (s : List Char) : Nat := (reSize re + 2) * (s.length + 2)

/-- The match Python reports at this position, if any. -/
def matchHere (fuel : Nat) (re : RE) (s : List Char) : Option (List Char × Caps) :=
  (matchF fuel re s []).head?

/-- `re.finditer`: scan positions left to right, resume after each
non-empty match (after an empty match, advance one character). -/
def finditerAux (re : RE) (mfuel : Nat) : Nat → List Char → List Caps
  | 0, _ => []
  | Nat.succ _, [] =>
    match matchHere mfuel re [] with
    | some (_, caps) => [caps]
    | none => []
  | Nat.succ f, c :: t =>
    match matchHere mfuel re (c :: t) with
    | some (rest, caps) =>
      if rest.length = (c :: t).length then caps :: finditerAux re mfuel f t
      else caps :: finditerAux re mfuel f rest
    | none => finditerAux re mfuel f t

def finditer (re : RE) (s : List Char) : List Caps :=
  finditerAux re (fuelFor re s) (s.length + 1) s

/-- `re.search`: the captures of the leftmost match, if any. -/
def searchAux (re : RE) (mfuel : Nat) : List Char → Option Caps
  | [] =>
    match matchHere mfuel re [] with
    | some rc => some rc.2
    | none => none
  | c :: t =>
    match matchHere mfuel re (c :: t) with
    | some rc => some rc.2
    | none => searchAux re mfuel t

def reSearch (re : RE) (s : List Char) : Option Caps :=
  searchAux re (fuelFor re s) s

/-- The declaration keywords of `dependency_pattern`'s first alternative,
in the pattern's order (the ninth alternative `implementation\(` follows). -/
def gradleKeywords : List String :=
  ["implementation", "api", "compileOnly", "runtimeOnly", "testImplementation",
   "testCompile", "kapt", "classpath"]

/-- First alternative of `dependency_pattern` (dependency_scanner.py line
95): keyword, `[\s"']*`, `(g):(a):(v(-\w+)*)`, `["']*`, `\)?`. -/
def patternA : RE := seqs [
  altChain (litStr "implementation")
    ((gradleKeywords.drop 1).map litStr ++ [litStr "implementation("]),
  .star (.cls .spaceQuote),
  .group 1 (rePlus .coord),
  .lit ':',
  .group 2 (rePlus .coord),
  .lit ':',
  .group 3 (seqs [rePlus .coord, .star (.seq (.lit '-') (rePlus .word))]),
  .star (.cls .quote),
  reOpt (.lit ')')]

/-- Second alternative of `dependency_pattern` (line 96): keyword,
`\s+group:\s*['"](g)['"],\s*name:\s*['"](a)['"],\s*version:\s*['"](v)['"]`. -/
def patternB : RE := seqs [
  altChain (litStr "implementation") ((gradleKeywords.drop 1).map litStr),
  rePlus .space,
  litStr "group:",
  .star (.cls .space),
  .cls .quote,
  .group 4 (rePlus .coord),
  .cls .quote,
  .lit ',',
  .star (.cls .space),
  litStr "name:",
  .star (.cls .space),
  .cls .quote,
  .group 5 (rePlus .coord),
  .cls .quote,
  .lit ',',
  .star (.cls .space),
  litStr "version:",
  .star (.cls .space),
  .cls .quote,
  .group 6 (rePlus .coord),
  .cls .quote]

/-- `dependency_pattern` of `parse_gradle_build_file`. -/
def dependencyPat : RE := .alt patternA patternB

/-- `kotlin_dependency_pattern` (line 99):
`(?:kotlin|…)\(["'](g):(a)["']\)\s+version\s+["'](v)["']`. -/
def kotlinPat : RE := seqs [
  altChain (litStr "kotlin")
    (["implementation", "api", "compileOnly", "runtimeOnly",
      "testImplementation"].map litStr),
  .lit '(',
  .cls .quote,
  .group 1 (rePlus .coord),
  .lit ':',
  .group 2 (rePlus .coord),
  .cls .quote,
  .lit ')',
  rePlus .space,
  litStr "version",
  rePlus .space,
  .cls .quote,
  .group 3 (rePlus .coord),
  .cls .quote]

/-- The per-line pattern of `parse_gradle_file`
(dependency_scanner_multi_repo.py line 64): `['"]([^:]+):([^:]+):([^'"]+)['"]`. -/
def multiPat : RE := seqs [
  .cls .quote,
  .group 1 (rePlus .notColon),
  .lit ':',
  .group 2 (rePlus .notColon),
  .lit ':',
  .group 3 (rePlus .notQuote),
  .cls .quote]

/-- `parse_gradle_build_file` applied to file content it managed to read:
all `dependency_pattern` matches (groups 1–3, else groups 4–6, each gated
by Python truthiness), then all `kotlin_dependency_pattern` matches. -/
def parseGradleBuildContent (content : String) : List DepRecord :=
  let c := content.toList
  let l1 := (finditer dependencyPat c).filterMap (fun caps =>
    if optTruthy (capGet caps 1) && optTruthy (capGet caps 2) && optTruthy (capGet caps 3) then
      some ⟨capGet caps 1, capGet caps 2, capGet caps 3⟩
    else if optTruthy (capGet caps 4) && optTruthy (capGet caps 5) && optTruthy (capGet caps 6) then
      some ⟨capGet caps 4, capGet caps 5, capGet caps 6⟩
    else none)
  let l2 := (finditer kotlinPat c).map
    (fun caps => ⟨capGet caps 1, capGet caps 2, capGet caps 3⟩)
  l1 ++ l2

/-- Python `needle in hay` on strings. -/
def strContains : List Char → List Char → Bool
  | hay, needle =>
    match hay with
    | [] => needle.isEmpty
    | c :: t => needle.isPrefixOf (c :: t) || strContains t needle

/-- One iteration of `parse_gradle_file`'s line loop: the substring guard,
then `re.search` with the first match (at most one record per line). -/
def parseGradleLine (line : String) : List DepRecord :=
  if strContains line.toList "implementation".toList ||
      strContains line.toList "compile".toList then
    match reSearch multiPat line.toList with
    | some caps => [⟨capGet caps 1, capGet caps 2, capGet caps 3⟩]
    | none => []
  else []

/-- Split file content into lines at newline characters, as iterating an
open Python file does (the terminators themselves play no role in any
pattern here, so they are dropped). -/
def pyLinesAux (cur : List Char) : List Char → List String
  | [] => [String.mk cur.reverse]
  | c :: t =>
    if c = '\n' then String.mk cur.reverse :: pyLinesAux [] t
    else pyLinesAux (c :: cur) t

def pyLines (s : String) : List String := pyLinesAux [] s.toList

/-- `parse_gradle_file` applied to file content it managed to read. -/
def parseGradleContent (content : String) : List DepRecord :=
  (pyLines content).flatMap parseGradleLine

/-!
File access and the parser boundaries.  `ET.parse` / `open` raise
`FileNotFoundError` on a missing path and `PermissionError` on a
permission-denied path; malformed XML raises `ET.ParseError`, modelled by
the `.error` side of `FileData.xml`.  Each embedded parser returns
`.error e` exactly when the Python function lets exception `e` escape.
-/

/-- The exceptions that can escape a parser in this repository. -/
inductive PyExc where
  | fileNotFound
  | permissionError
deriving DecidableEq, Repr

/-- What a readable file yields: its raw text, and the result of parsing
its bytes as XML (`.error msg` models `ET.ParseError`). -/
structure FileData where
  raw : String
  xml : Except String XElem

/-- The outcome of touching a path. -/
inductive FileAccess where
  | missing
  | denied
  | ok (data : FileData)

/-- `parse_maven_pom` (dependency_scanner.py lines 20–75): catches
`ET.ParseError` and `FileNotFoundError`, but nothing else. -/
def parse_maven_pom (pomPath : String) (fa : FileAccess) :
    Except PyExc (List String × List DepRecord) :=
  match fa with
  | .missing => .ok ([s!"File not found: {pomPath}"], [])
  | .denied => .error .permissionError
  | .ok d =>
    match d.xml with
    | .error e => .ok ([s!"Error parsing XML for {pomPath}: {e}"], [])
    | .ok root => .ok ([], parseMavenPomRoot root)

/-- `parse_gradle_build_file` (lines 77–128): catches only
`FileNotFoundError`. -/
def parse_gradle_build_file (buildFilePath : String) (fa : FileAccess) :
    Except PyExc (List String × List DepRecord) :=
  match fa with
  | .missing => .ok ([s!"File not found: {buildFilePath}"], [])
  | .denied => .error .permissionError
  | .ok d => .ok ([], parseGradleBuildContent d.raw)

/-- `parse_pom` (dependency_scanner_multi_repo.py lines 30–52): catches
only `ET.ParseError`. -/
def parse_pom (filePath : String) (fa : FileAccess) :
    Except PyExc (List String × List DepRecord) :=
  match fa with
  | .missing => .error .fileNotFound
  | .denied => .error .permissionError
  | .ok d =>
    match d.xml with
    | .error e => .ok ([s!"Error parsing XML file {filePath}: {e}"], [])
    | .ok root => .ok ([], parsePomRoot root)

/-- `parse_gradle_file` (lines 54–72): no exception handling at all. -/
def parse_gradle_file (filePath : String) (fa : FileAccess) :
    Except PyExc (List String × List DepRecord) :=
  match fa with
  | .missing => .error .fileNotFound
  | .denied => .error .permissionError
  | .ok d => .ok ([], parseGradleContent d.raw)

/-- The inner file loop of `generate_dependency_report` (lines 135–151)
for one directory: the first file equal to `pom.xml` or ending in
`build.gradle`/`build.gradle.kts` is parsed and the loop breaks; the
directory gets an entry only when the parsed list is non-empty. -/
def dirScan (root : String) : List (String × FileAccess) →
    Except PyExc (Option (List DepRecord))
  | [] => .ok none
  | (name, fa) :: rest =>
    if name == "pom.xml" then
      match parse_maven_pom (root ++ "/" ++ name) fa with
      | .error e => .error e
      | .ok (_, deps) => .ok (if deps.isEmpty then none else some deps)
    else if pyEndsWith name "build.gradle" || pyEndsWith name "build.gradle.kts" then
      match parse_gradle_build_file (root ++ "/" ++ name) fa with
      | .error e => .error e
      | .ok (_, deps) => .ok (if deps.isEmpty then none else some deps)
    else dirScan root rest

/-- `generate_dependency_report` over a directory walk, given as the list
of (directory, its files) in `os.walk` order.  The returned association
list is the `project_dependencies` dict in insertion order. -/
def generate_dependency_report :
    List (String × List (String × FileAccess)) →
    Except PyExc (List (String × List DepRecord))
  | [] => .ok []
  | (root, files) :: restDirs =>
    match dirScan root files with
    | .error e => .error e
    | .ok none => generate_dependency_report restDirs
    | .ok (some deps) =>
      match generate_dependency_report restDirs with
      | .error e => .error e
      | .ok m => .ok ((root, deps) :: m)

/-- A row of the multi-repo CSV report, as the dicts `main` appends to
`all_dependencies`; Group/Artifact/Version come from a `DepRecord` and may
be Python `None`. -/
structure CSVRow where
  repository : String
  file : String
  groupId : Option String
  artifactId : Option String
  version : Option String
deriving Repr, DecidableEq

/-- `csv_columns` (dependency_scanner_multi_repo.py line 18). -/
def csvColumns : List String :=
  ["Repository", "File", "Group ID", "Artifact ID", "Version"]

/-- The row `main` builds for one parsed dependency. -/
def mkRow (repoName filePath : String) (d : DepRecord) : CSVRow :=
  ⟨repoName, filePath, d.groupId, d.artifactId, d.version⟩

/-- The inner file loop of the multi-repo `main` (lines 85–106) for one
directory: every `pom.xml` and every file named exactly `build.gradle`
contributes rows; there is no break. -/
def scanFilesMulti (repoName root : String) :
    List (String × FileAccess) → Except PyExc (List CSVRow)
  | [] => .ok []
  | (name, fa) :: rest =>
    if name == "pom.xml" then
      match parse_pom (root ++ "/" ++ name) fa with
      | .error e => .error e
      | .ok (_, deps) =>
        match scanFilesMulti repoName root rest with
        | .error e => .error e
        | .ok rows => .ok (deps.map (mkRow repoName (root ++ "/" ++ name)) ++ rows)
    else if name == "build.gradle" then
      match parse_gradle_file (root ++ "/" ++ name) fa with
      | .error e => .error e
      | .ok (_, deps) =>
        match scanFilesMulti repoName root rest with
        | .error e => .error e
        | .ok rows => .ok (deps.map (mkRow repoName (root ++ "/" ++ name)) ++ rows)
    else scanFilesMulti repoName root rest

/-!
The tabular sink.  `csv.DictWriter` with the default dialect: fields are
quoted only when they contain the delimiter, the quote character or a
line-break character (QUOTE_MINIMAL); a quote inside a quoted field is
doubled; rows end with CRLF; a `None` cell is written as the empty
string.  The repository only writes this format, so re-reading is
modelled from the spec (§8, round-trip property) as the standard reader
of exactly this dialect.
-/

/-- `csv.writer` renders a `None` cell as the empty string. -/
def cellStr (v : Option String) : String := v.getD ""

/-- The cell list `DictWriter.writerow` emits for one row, in
`csv_columns` order. -/
def rowCells (r : CSVRow) : List String :=
  [r.repository, r.file, cellStr r.groupId, cellStr r.artifactId, cellStr r.version]

/-- QUOTE_MINIMAL: quote only fields holding a delimiter, quote or CR/LF. -/
def needsQuoting (s : String) : Bool :=
  s.toList.any (fun c => c = ',' || c = '"' || c = '\r' || c = '\n')

/-- Double every quote character. -/
def escapeQuotes : List Char → List Char
  | [] => []
  | c :: t => if c = '"' then '"' :: '"' :: escapeQuotes t else c :: escapeQuotes t

def renderFieldChars (s : String) : List Char :=
  if needsQuoting s then '"' :: (escapeQuotes s.toList ++ ['"']) else s.toList

def renderRowChars : List String → List Char
  | [] => ['\r', '\n']
  | [f] => renderFieldChars f ++ ['\r', '\n']
  | f :: rest => renderFieldChars f ++ ',' :: renderRowChars rest

def renderTable (rows : List (List String)) : List Char :=
  rows.flatMap renderRowChars

/-- The CSV text `main` writes: the header row, then one row per
dependency (lines 112–115). -/
def renderReport (rows : List CSVRow) : List Char :=
  renderTable (csvColumns :: rows.map rowCells)

/-- States of the CSV reading automaton. -/
inductive CState where
  | sf
  | un
  | qu
  | qe
  | cr
deriving DecidableEq, Repr

/-- Close the current field and row. -/
def csvPushRow (rows : List (List String)) (row : List String)
    (fld : List Char) : List (List String) :=
  ((String.mk fld.reverse :: row).reverse) :: rows

/-- Modelled from the spec: the spec's round-trip property (§8) speaks of
re-reading the tabular sink, but the repository contains no CSV reader;
this automaton reads the dialect `csv.DictWriter` writes.  Arguments:
remaining input, state, current field (reversed), current row (reversed),
finished rows (reversed). -/
def csvRun : List Char → CState → List Char → List String →
    List (List String) → Option (List (List String))
  | [], st, fld, row, rows =>
    match st with
    | .sf =>
      if fld.isEmpty && row.isEmpty then some rows.reverse
      else some (csvPushRow rows row fld).reverse
    | .un => some (csvPushRow rows row fld).reverse
    | .qe => some (csvPushRow rows row fld).reverse
    | .qu => none
    | .cr => none
  | c :: t, st, fld, row, rows =>
    match st with
    | .sf =>
      if c = '"' then csvRun t .qu [] row rows
      else if c = ',' then csvRun t .sf [] (String.mk fld.reverse :: row) rows
      else if c = '\r' then csvRun t .cr fld row rows
      else if c = '\n' then csvRun t .sf [] [] (csvPushRow rows row fld)
      else csvRun t .un (c :: fld) row rows
    | .un =>
      if c = ',' then csvRun t .sf [] (String.mk fld.reverse :: row) rows
      else if c = '\r' then csvRun t .cr fld row rows
      else if c = '\n' then csvRun t .sf [] [] (csvPushRow rows row fld)
      else csvRun t .un (c :: fld) row rows
    | .qu =>
      if c = '"' then csvRun t .qe fld row rows
      else csvRun t .qu (c :: fld) row rows
    | .qe =>
      if c = '"' then csvRun t .qu ('"' :: fld) row rows
      else if c = ',' then csvRun t .sf [] (String.mk fld.reverse :: row) rows
      else if c = '\r' then csvRun t .cr fld row rows
      else if c = '\n' then csvRun t .sf [] [] (csvPushRow rows row fld)
      else none
    | .cr =>
      if c = '\n' then csvRun t .sf [] [] (csvPushRow rows row fld)
      else none

/-- Parse a whole CSV text into its rows of fields. -/
def parseCSV (s : List Char) : Option (List (List String)) :=
  csvRun s .sf [] [] []

/-- The (project, group, artifact, version) tuple of a parsed CSV row
(columns 0, 2, 3, 4; column 1 is the source file). -/
def tupleOfCells (cells : List String) : String × String × String × String :=
  (cells.getD 0 "", cells.getD 2 "", cells.getD 3 "", cells.getD 4 "")

/-- The same tuple read off a `CSVRow` before rendering. -/
def rowTuple (r : CSVRow) : String × String × String × String :=
  (r.repository, cellStr r.groupId, cellStr r.artifactId, cellStr r.version)

/-!
Concrete documents, file data and build lines used by the example-based
theorems, followed by the auxiliary predicates and counting functions the
general theorems quantify over.
-/

/-- An element with text and no children. -/
def leafEl (tag txt : String) : XElem := .mk tag (some txt) []

/-- A dependency with group `g`, artifact `a` and literal version `1.0.0`. -/
def exDep : XElem :=
  .mk "dependency" none [leafEl "groupId" "g", leafEl "artifactId" "a", leafEl "version" "1.0.0"]

def exPomRoot : XElem := .mk "project" none [.mk "dependencies" none [exDep]]

/-- A readable `pom.xml` whose XML parses to `exPomRoot`. -/
def exPomData : FileData := ⟨"", .ok exPomRoot⟩

/-- A readable `build.gradle` with one coordinate declaration (its XML
view is irrelevant to the gradle parser). -/
def exGradleData : FileData := ⟨"implementation 'a.b:c:1.0'", .error "junk"⟩

def exGradleRecord : DepRecord := ⟨some "a.b", some "c", some "1.0"⟩

def exMavenRecord : DepRecord := ⟨some "g", some "a", some "1.0.0"⟩

/-- A dependency whose `version` element is present but empty: as
`ElementTree` reports it, its text is `None`. -/
def emptyVersionDep : XElem :=
  .mk "dependency" none [leafEl "groupId" "g", leafEl "artifactId" "a", .mk "version" none []]

def emptyVersionRoot : XElem := .mk "project" none [.mk "dependencies" none [emptyVersionDep]]

/-- The literal version text `${x}`. -/
def propRefX : String := propRefOpen ++ "x" ++ propRefClose

def exProps : PropTable := [("x", some "1.2.3")]

def propRefVersionEl : XElem := leafEl "version" propRefX

def propRefDep : XElem :=
  .mk "dependency" none [leafEl "groupId" "g", leafEl "artifactId" "a", propRefVersionEl]

/-- A manifest declaring `version = ${x}` with properties `x = 1.2.3`. -/
def propRefRoot : XElem :=
  .mk "project" none
    [.mk "properties" none [leafEl "x" "1.2.3"], .mk "dependencies" none [propRefDep]]

def resolvedRecord : DepRecord := ⟨some "g", some "a", some "1.2.3"⟩

def noVersionDep : XElem :=
  .mk "dependency" none [leafEl "groupId" "g", leafEl "artifactId" "a"]

/-- A manifest with `parent/version = 9.9.9` and a dependency that
declares no version of its own. -/
def parentRoot : XElem :=
  .mk "project" none
    [.mk "parent" none [leafEl "version" "9.9.9"], .mk "dependencies" none [noVersionDep]]

def inheritedRecord : DepRecord := ⟨some "g", some "a", some "9.9.9"⟩

/-- The named-argument declaration of spec §8. -/
def namedArgLine : String :=
  "implementation group: 'com.example', name: 'lib', version: '2.0.0'"

def namedArgRecord : DepRecord := ⟨some "com.example", some "lib", some "2.0.0"⟩

/-- What `parse_gradle_file`'s line regex actually captures on
`namedArgLine`: its `[^:]+` groups run across the quoted arguments. -/
def mangledRecord : DepRecord :=
  ⟨some "com.example', name", some " 'lib', version", some " "⟩

def exWalk : List (String × List (String × FileAccess)) :=
  [("repo/mod", [("pom.xml", FileAccess.ok exPomData)])]

def exReport : List (String × List DepRecord) := [("repo/mod", [exMavenRecord])]

/-- Whether `generate_dependency_report`'s file loop treats this file
name as a descriptor. -/
def isDescriptorName (name : String) : Bool :=
  name == "pom.xml" || pyEndsWith name "build.gradle" || pyEndsWith name "build.gradle.kts"

/-- The version field is a present, non-empty string. -/
def recVersionPopulated (r : DepRecord) : Bool :=
  match r.version with
  | some s => !s.isEmpty
  | none => false

/-- Every `version` element this dependency declares has text. -/
def depVersionTextOk (dep : XElem) : Bool :=
  match findChild dep "version" with
  | some v => v.text.isSome
  | none => true

def pomVersionTextsOk (root : XElem) : Bool := (depsOfPom root).all depVersionTextOk

/-- A build line referencing an in-repository module:
`kw(project(":module"))`. -/
def projectLine (kw m : List Char) : List Char :=
  kw ++ "(project(\":".toList ++ m ++ "\"))".toList

/-- How many characters of `s` satisfy `P`. -/
def countP (P : Char → Bool) : List Char → Nat
  | [] => 0
  | c :: t => (if P c then 1 else 0) + countP P t

def isColon (c : Char) : Bool := c = ':'

/-- A lower bound on the number of weighted characters any match of a
pattern must consume: literals weigh `litMin`, classes `ccMin`; ordered
alternation takes the smaller branch, a star may run zero times. -/
def reMin (ccMin : CC → Nat) (litMin : Char → Nat) : RE → Nat
  | .eps => 0
  | .lit c => litMin c
  | .cls cc => ccMin cc
  | .seq a b => reMin ccMin litMin a + reMin ccMin litMin b
  | .alt a b => min (reMin ccMin litMin a) (reMin ccMin litMin b)
  | .group _ a => reMin ccMin litMin a
  | .star _ => 0

def colonLit (c : Char) : Nat := if isColon c then 1 else 0

def zeroCC : CC → Nat := fun _ => 0

def spaceCC : CC → Nat := fun cc => if cc = CC.space then 1 else 0

def zeroLit : Char → Nat := fun _ => 0

/-!
Theorems.  First generic facts about the engine, the scan and the CSV
automaton, then one theorem (with witness or counterexample as needed)
per claim of the specification.
-/

theorem countP_append (P : Char → Bool) (a b : List Char) :
    countP P (a ++ b) = countP P a + countP P b := by
  induction a with
  | nil => simp [countP]
  | cons c t ih => simp [countP, ih]; omega

theorem countP_tail_le (P : Char → Bool) (c : Char) (t : List Char) :
    countP P t ≤ countP P (c :: t) := by
  cases h : P c <;> simp [countP, h]

/-- Any match consumes at least `reMin` weighted characters: the weight
of what remains plus the pattern's floor is bounded by the weight of the
input, whenever `litMin`/`ccMin` are sound floors for `P`. -/
theorem matchF_bound (P : Char → Bool) (ccMin : CC → Nat) (litMin : Char → Nat)
    (hl : ∀ c, litMin c ≤ (if P c then 1 else 0))
    (hc : ∀ cc x, CC.mem cc x = true → ccMin cc ≤ (if P x then 1 else 0)) :
    ∀ fuel re s caps rc, rc ∈ matchF fuel re s caps →
      reMin ccMin litMin re + countP P rc.1 ≤ countP P s := by
  intro fuel
  induction fuel with
  | zero => intro re s caps rc h; simp [matchF] at h
  | succ f ih =>
    intro re s caps rc h
    cases re with
    | eps =>
      simp [matchF] at h
      subst h
      simp [reMin]
    | lit ch =>
      cases s with
      | nil => simp [matchF] at h
      | cons x t =>
        by_cases hx : x = ch
        · subst hx
          simp [matchF] at h
          subst h
          have h1 := hl x
          simp [reMin, countP]
          omega
        · simp [matchF, hx] at h
    | cls cc =>
      cases s with
      | nil => simp [matchF] at h
      | cons x t =>
        by_cases hm : CC.mem cc x = true
        · simp [matchF, hm] at h
          subst h
          have h1 := hc cc x hm
          simp [reMin, countP]
          omega
        · simp [matchF, hm] at h
    | seq a b =>
      simp only [matchF, List.mem_flatMap] at h
      obtain ⟨rc1, h1, h2⟩ := h
      have ha := ih a s caps rc1 h1
      have hb := ih b rc1.1 rc1.2 rc h2
      simp only [reMin]
      omega
    | alt a b =>
      simp only [matchF, List.mem_append] at h
      rcases h with h | h
      · have := ih a s caps rc h
        simp only [reMin]
        omega
      · have := ih b s caps rc h
        simp only [reMin]
        omega
    | group i a =>
      simp only [matchF, List.mem_map] at h
      obtain ⟨rc0, h0, hrc⟩ := h
      have := ih a s caps rc0 h0
      subst hrc
      simpa [reMin] using this
    | star a =>
      simp only [matchF, List.mem_append, List.mem_flatMap, List.mem_filter,
        List.mem_singleton] at h
      rcases h with ⟨rc1, ⟨h1, _⟩, h2⟩ | h
      · have ha := ih a s caps rc1 h1
        have hs := ih (.star a) rc1.1 rc1.2 rc h2
        simp only [reMin] at hs ⊢
        omega
      · subst h
        simp [reMin]

theorem matchF_short (P : Char → Bool) (ccMin : CC → Nat) (litMin : Char → Nat)
    (hl : ∀ c, litMin c ≤ (if P c then 1 else 0))
    (hc : ∀ cc x, CC.mem cc x = true → ccMin cc ≤ (if P x then 1 else 0))
    (fuel : Nat) (re : RE) (s : List Char) (caps : Caps)
    (h : countP P s < reMin ccMin litMin re) : matchF fuel re s caps = [] := by
  cases e : matchF fuel re s caps with
  | nil => rfl
  | cons rc tl =>
    have hm : rc ∈ matchF fuel re s caps := by
      rw [e]
      exact List.mem_cons_self rc tl
    have := matchF_bound P ccMin litMin hl hc fuel re s caps rc hm
    omega

theorem matchHere_short (P : Char → Bool) (ccMin : CC → Nat) (litMin : Char → Nat)
    (hl : ∀ c, litMin c ≤ (if P c then 1 else 0))
    (hc : ∀ cc x, CC.mem cc x = true → ccMin cc ≤ (if P x then 1 else 0))
    (fuel : Nat) (re : RE) (s : List Char)
    (h : countP P s < reMin ccMin litMin re) : matchHere fuel re s = none := by
  unfold matchHere
  rw [matchF_short P ccMin litMin hl hc fuel re s [] h]
  rfl

theorem finditerAux_short (P : Char → Bool) (ccMin : CC → Nat) (litMin : Char → Nat)
    (hl : ∀ c, litMin c ≤ (if P c then 1 else 0))
    (hc : ∀ cc x, CC.mem cc x = true → ccMin cc ≤ (if P x then 1 else 0))
    (re : RE) (mfuel : Nat) :
    ∀ f s, countP P s < reMin ccMin litMin re → finditerAux re mfuel f s = [] := by
  intro f
  induction f with
  | zero => intro s _; rfl
  | succ f ih =>
    intro s h
    cases s with
    | nil =>
      unfold finditerAux
      rw [matchHere_short P ccMin litMin hl hc mfuel re [] h]
    | cons c t =>
      unfold finditerAux
      rw [matchHere_short P ccMin litMin hl hc mfuel re (c :: t) h]
      exact ih t (lt_of_le_of_lt (countP_tail_le P c t) h)

theorem finditer_short (P : Char → Bool) (ccMin : CC → Nat) (litMin : Char → Nat)
    (hl : ∀ c, litMin c ≤ (if P c then 1 else 0))
    (hc : ∀ cc x, CC.mem cc x = true → ccMin cc ≤ (if P x then 1 else 0))
    (re : RE) (s : List Char)
    (h : countP P s < reMin ccMin litMin re) : finditer re s = [] :=
  finditerAux_short P ccMin litMin hl hc re (fuelFor re s) (s.length + 1) s h

theorem searchAux_short (P : Char → Bool) (ccMin : CC → Nat) (litMin : Char → Nat)
    (hl : ∀ c, litMin c ≤ (if P c then 1 else 0))
    (hc : ∀ cc x, CC.mem cc x = true → ccMin cc ≤ (if P x then 1 else 0))
    (re : RE) (mfuel : Nat) :
    ∀ s, countP P s < reMin ccMin litMin re → searchAux re mfuel s = none := by
  intro s
  induction s with
  | nil =>
    intro h
    unfold searchAux
    rw [matchHere_short P ccMin litMin hl hc mfuel re [] h]
  | cons c t ih =>
    intro h
    unfold searchAux
    rw [matchHere_short P ccMin litMin hl hc mfuel re (c :: t) h]
    exact ih (lt_of_le_of_lt (countP_tail_le P c t) h)

theorem reSearch_short (P : Char → Bool) (ccMin : CC → Nat) (litMin : Char → Nat)
    (hl : ∀ c, litMin c ≤ (if P c then 1 else 0))
    (hc : ∀ cc x, CC.mem cc x = true → ccMin cc ≤ (if P x then 1 else 0))
    (re : RE) (s : List Char)
    (h : countP P s < reMin ccMin litMin re) : reSearch re s = none :=
  searchAux_short P ccMin litMin hl hc re (fuelFor re s) s h

theorem spaceCC_sound :
    ∀ cc x, CC.mem cc x = true → spaceCC cc ≤ (if isPySpace x then 1 else 0) := by
  intro cc x hm
  cases cc
  case space =>
    simp only [CC.mem] at hm
    simp [spaceCC, hm]
  all_goals simp [spaceCC]

theorem gradleKeywords_counts :
    ∀ k ∈ gradleKeywords, countP isColon k.toList = 0 ∧ countP isPySpace k.toList = 0 := by
  decide

theorem reMin_dependencyPat_colon : reMin zeroCC colonLit dependencyPat = 2 := by decide

theorem reMin_kotlinPat_space : reMin spaceCC zeroLit kotlinPat = 2 := by decide

theorem reMin_multiPat_colon : reMin zeroCC colonLit multiPat = 2 := by decide

/-- C7: a build line referencing an in-repository module rather than an
external coordinate — `kw(project(":module"))` for any recognized
declaration keyword and any module name free of colons and whitespace —
produces no dependency record from either semi-structured parser: every
coordinate pattern needs at least two colons in what it consumes, the
kotlin-dialect pattern at least two whitespace characters, and such a
line has exactly one colon and no whitespace. -/
theorem project_reference_yields_no_record (kw m : List Char)
    (hkw : kw ∈ gradleKeywords.map String.toList)
    (hmc : countP isColon m = 0)
    (hms : countP isPySpace m = 0) :
    parseGradleBuildContent (String.mk (projectLine kw m)) = [] ∧
    parseGradleLine (String.mk (projectLine kw m)) = [] := by
  have hkw' : countP isColon kw = 0 ∧ countP isPySpace kw = 0 := by
    simp only [List.mem_map] at hkw
    obtain ⟨k, hk, rfl⟩ := hkw
    exact gradleKeywords_counts k hk
  have hmid1 : countP isColon "(project(\":".toList = 1 := by decide
  have hmid2 : countP isColon "\"))".toList = 0 := by decide
  have hmid3 : countP isPySpace "(project(\":".toList = 0 := by decide
  have hmid4 : countP isPySpace "\"))".toList = 0 := by decide
  have hcolon : countP isColon (projectLine kw m) = 1 := by
    unfold projectLine
    rw [countP_append, countP_append, countP_append, hkw'.1, hmc, hmid1, hmid2]
  have hspace : countP isPySpace (projectLine kw m) = 0 := by
    unfold projectLine
    rw [countP_append, countP_append, countP_append, hkw'.2, hms, hmid3, hmid4]
  have f1 : finditer dependencyPat (projectLine kw m) = [] :=
    finditer_short isColon zeroCC colonLit (fun _ => Nat.le_refl _)
      (fun _ _ _ => Nat.zero_le _) dependencyPat _
      (by rw [hcolon, reMin_dependencyPat_colon]; omega)
  have f2 : finditer kotlinPat (projectLine kw m) = [] :=
    finditer_short isPySpace spaceCC zeroLit (fun _ => Nat.zero_le _)
      spaceCC_sound kotlinPat _
      (by rw [hspace, reMin_kotlinPat_space]; omega)
  have f3 : reSearch multiPat (projectLine kw m) = none :=
    reSearch_short isColon zeroCC colonLit (fun _ => Nat.le_refl _)
      (fun _ _ _ => Nat.zero_le _) multiPat _
      (by rw [hcolon, reMin_multiPat_colon]; omega)
  constructor
  · simp [parseGradleBuildContent, f1, f2]
  · have hts : (String.mk (projectLine kw m)).toList = projectLine kw m := rfl
    simp only [parseGradleLine, hts, f3]
    split <;> rfl

/-- Concrete instance of C7: `implementation(project(":some-module"))`. -/
theorem project_reference_yields_no_record_witness :
    ("implementation".toList ∈ gradleKeywords.map String.toList) ∧
    countP isColon "some-module".toList = 0 ∧
    countP isPySpace "some-module".toList = 0 ∧
    parseGradleBuildContent
      (String.mk (projectLine "implementation".toList "some-module".toList)) = [] ∧
    parseGradleLine
      (String.mk (projectLine "implementation".toList "some-module".toList)) = [] := by
  refine ⟨by decide, by decide, by decide, ?_, ?_⟩
  · exact (project_reference_yields_no_record "implementation".toList
      "some-module".toList (by decide) (by decide) (by decide)).1
  · exact (project_reference_yields_no_record "implementation".toList
      "some-module".toList (by decide) (by decide) (by decide)).2

/-- C10: `parse_gradle_file` runs one guarded `re.search` per line, so a
line yields at most one record, however many declarations it holds; the
record, when present, comes from the first match on the line. -/
theorem multi_line_at_most_one_record (line : String) :
    (parseGradleLine line).length ≤ 1 := by
  unfold parseGradleLine
  split
  · split <;> simp
  · simp

/-- C3 counterexample: a missing `build.gradle` makes `parse_gradle_file`
raise `FileNotFoundError` past the parser boundary instead of returning
an empty list — the function has no exception handling at all. -/
theorem missing_gradle_file_raises :
    parse_gradle_file "repo/build.gradle" .missing = .error .fileNotFound := rfl

/-- C3 (amended): the handled failures produce a diagnostic and an empty
list — `parse_maven_pom` and `parse_gradle_build_file` on a missing file,
`parse_maven_pom` and `parse_pom` on malformed XML; but permission-denied
escapes all four parsers as `PermissionError`, and a missing file escapes
`parse_pom` and `parse_gradle_file` as `FileNotFoundError`. -/
theorem parser_boundary_behaviour :
    (∀ p, parse_maven_pom p .missing = .ok ([s!"File not found: {p}"], [])) ∧
    (∀ p raw e, parse_maven_pom p (.ok ⟨raw, .error e⟩) =
      .ok ([s!"Error parsing XML for {p}: {e}"], [])) ∧
    (∀ p, parse_gradle_build_file p .missing = .ok ([s!"File not found: {p}"], [])) ∧
    (∀ p raw e, parse_pom p (.ok ⟨raw, .error e⟩) =
      .ok ([s!"Error parsing XML file {p}: {e}"], [])) ∧
    (∀ p, parse_maven_pom p .denied = .error .permissionError) ∧
    (∀ p, parse_gradle_build_file p .denied = .error .permissionError) ∧
    (∀ p, parse_pom p .missing = .error .fileNotFound) ∧
    (∀ p, parse_pom p .denied = .error .permissionError) ∧
    (∀ p, parse_gradle_file p .missing = .error .fileNotFound) ∧
    (∀ p, parse_gradle_file p .denied = .error .permissionError) :=
  ⟨fun _ => rfl, fun _ _ _ => rfl, fun _ => rfl, fun _ _ _ => rfl, fun _ => rfl,
   fun _ => rfl, fun _ => rfl, fun _ => rfl, fun _ => rfl, fun _ => rfl⟩

theorem depRecordOf_version (props : PropTable) (pv : Option String)
    (dep : XElem) (rec : DepRecord) (h : depRecordOf props pv dep = some rec) :
    rec.version = some (finalizeVersion (resolveVersion props pv dep)) := by
  unfold depRecordOf at h
  cases hg : findChild dep "groupId" <;> rw [hg] at h
  · cases h
  · cases ha : findChild dep "artifactId" <;> rw [ha] at h
    · cases h
    · injection h with h
      subst h
      rfl

theorem pomDepRecordOf_version (dep : XElem) (rec : DepRecord)
    (h : pomDepRecordOf dep = some rec) : rec.version = pomVersionOf dep := by
  unfold pomDepRecordOf at h
  cases hg : findChild dep "groupId" <;> rw [hg] at h
  · cases h
  · cases ha : findChild dep "artifactId" <;> rw [ha] at h
    · cases h
    · injection h with h
      subst h
      rfl

theorem finalizeVersion_not_empty (rv : Option String) :
    (finalizeVersion rv).isEmpty = false := by
  unfold finalizeVersion
  cases rv with
  | none => rfl
  | some s =>
    cases h : s.isEmpty
    · simp [h]
    · simp only [h, if_true]
      rfl

theorem filterMap_depRecordOf_populated (props : PropTable) (pv : Option String)
    (l : List XElem) :
    (l.filterMap (depRecordOf props pv)).all recVersionPopulated = true := by
  induction l with
  | nil => rfl
  | cons d t ih =>
    rw [List.filterMap_cons]
    cases hd : depRecordOf props pv d with
    | none => exact ih
    | some rec =>
      rw [List.all_cons, ih, Bool.and_true]
      have hv := depRecordOf_version props pv d rec hd
      unfold recVersionPopulated
      rw [hv]
      simp [finalizeVersion_not_empty]

theorem filterMap_pomDepRecordOf_some (l : List XElem)
    (h : l.all depVersionTextOk = true) :
    (l.filterMap pomDepRecordOf).all (fun r => r.version.isSome) = true := by
  induction l with
  | nil => rfl
  | cons d t ih =>
    rw [List.all_cons, Bool.and_eq_true] at h
    rw [List.filterMap_cons]
    cases hd : pomDepRecordOf d with
    | none => exact ih h.2
    | some rec =>
      rw [List.all_cons, ih h.2, Bool.and_true]
      have hv := pomDepRecordOf_version d rec hd
      have h1 := h.1
      unfold depVersionTextOk at h1
      unfold pomVersionOf at hv
      cases hfc : findChild d "version" with
      | none =>
        rw [hfc] at hv
        rw [hv]
        rfl
      | some v =>
        rw [hfc] at hv
        rw [hfc] at h1
        rw [hv]
        exact h1

/-- C2 (amended): every record `parse_maven_pom` produces carries a
present, non-empty version string — a resolved value or the `N/A` /
`UNKNOWN` sentinel; a record `parse_pom` produces carries a present
version provided every declared version element has text, while a
present-but-empty version element (text `None` in ElementTree) is copied
verbatim and leaves the field `None`. -/
theorem version_field_population (root : XElem) :
    (parseMavenPomRoot root).all recVersionPopulated = true ∧
    (pomVersionTextsOk root = true →
      (parsePomRoot root).all (fun r => r.version.isSome) = true) := by
  constructor
  · exact filterMap_depRecordOf_populated (buildProps root) (parentVersionOf root)
      (depsOfMaven root)
  · intro h
    exact filterMap_pomDepRecordOf_some (depsOfPom root) h

/-- C2 counterexample: a manifest whose dependency has a present but
empty `version` element — `parse_pom` stores `version.text`, which is
`None`. -/
theorem empty_version_element_gives_none :
    parsePomRoot emptyVersionRoot = [⟨some "g", some "a", none⟩] := by
  unfold parsePomRoot depsOfPom
  simp only [emptyVersionRoot, emptyVersionDep, leafEl, XElem.children, descList]
  rfl

/-- Concrete instance of C2 on `exPomRoot`. -/
theorem version_field_population_witness :
    pomVersionTextsOk exPomRoot = true ∧
    (parseMavenPomRoot exPomRoot).all recVersionPopulated = true ∧
    (parsePomRoot exPomRoot).all (fun r => r.version.isSome) = true := by
  have h : pomVersionTextsOk exPomRoot = true := by
    unfold pomVersionTextsOk depsOfPom
    simp only [exPomRoot, exDep, leafEl, XElem.children, descList]
    rfl
  exact ⟨h, (version_field_population exPomRoot).1,
    (version_field_population exPomRoot).2 h⟩

/-- C4 (amended): when a dependency declares version text `${x}` and the
properties table maps `x` to `1.2.3`, the record `parse_maven_pom` builds
resolves the version to exactly `1.2.3`; `parse_pom` performs no property
substitution — it copies the version element's text verbatim. -/
theorem property_reference_resolution (props : PropTable) (pv : Option String)
    (dep : XElem) (v : XElem) (rec : DepRecord)
    (hv : findChild dep "version" = some v)
    (ht : v.text = some propRefX)
    (hx : dictGet props "x" = some (some "1.2.3"))
    (hr : depRecordOf props pv dep = some rec) :
    rec.version = some "1.2.3" ∧
    (∀ d w, findChild d "version" = some w → pomVersionOf d = w.text) := by
  constructor
  · have h1 := depRecordOf_version props pv dep rec hr
    have hres : resolveVersion props pv dep = some "1.2.3" := by
      unfold resolveVersion
      simp only [hv, ht]
      rw [if_pos (by decide : (!propRefX.isEmpty && pyStartsWith propRefX propRefOpen &&
        pyEndsWith propRefX propRefClose) = true)]
      rw [show sliceTwoToLast propRefX = "x" from rfl, hx]
    rw [h1, hres]
    rfl
  · intro d w h
    unfold pomVersionOf
    rw [h]

/-- C4 counterexample: on a manifest with `version = ${x}` and properties
`x = 1.2.3`, `parse_pom` yields the literal `${x}`, not `1.2.3`. -/
theorem multi_pom_leaves_reference_unresolved :
    parsePomRoot propRefRoot = [⟨some "g", some "a", some propRefX⟩] ∧
    propRefX ≠ "1.2.3" := by
  constructor
  · unfold parsePomRoot depsOfPom
    simp only [propRefRoot, propRefDep, propRefVersionEl, leafEl, XElem.children,
      descList]
    rfl
  · decide

/-- Concrete instance of C4: `${x}` with `x = 1.2.3` resolves to `1.2.3`
in `parse_maven_pom`'s record. -/
theorem property_reference_resolution_witness :
    findChild propRefDep "version" = some propRefVersionEl ∧
    dictGet exProps "x" = some (some "1.2.3") ∧
    depRecordOf exProps none propRefDep = some resolvedRecord ∧
    resolvedRecord.version = some "1.2.3" :=
  ⟨rfl, rfl, rfl,
   (property_reference_resolution exProps none propRefDep propRefVersionEl
     resolvedRecord rfl rfl rfl rfl).1⟩

/-- C5 (amended): when a dependency declares no version and the manifest
carries `parent/version = 9.9.9`, the record `parse_maven_pom` builds
inherits `9.9.9`; `parse_pom` never consults the parent element — a
missing version element always yields the `N/A` sentinel there. -/
theorem parent_version_inheritance (root dep : XElem) (rec : DepRecord)
    (hp : parentVersionOf root = some "9.9.9")
    (hd : findChild dep "version" = none)
    (hr : depRecordOf (buildProps root) (parentVersionOf root) dep = some rec) :
    rec.version = some "9.9.9" ∧
    (∀ d, findChild d "version" = none → pomVersionOf d = some "N/A") := by
  constructor
  · have h1 := depRecordOf_version (buildProps root) (parentVersionOf root) dep rec hr
    have hres : resolveVersion (buildProps root) (parentVersionOf root) dep =
        some "9.9.9" := by
      unfold resolveVersion
      rw [hd, hp]
      rfl
    rw [h1, hres]
    rfl
  · intro d h
    unfold pomVersionOf
    rw [h]

/-- C5 counterexample: with `parent/version = 9.9.9` present and a
dependency lacking its own version, `parse_pom` yields `N/A`. -/
theorem multi_pom_ignores_parent_version :
    parsePomRoot parentRoot = [⟨some "g", some "a", some "N/A"⟩] ∧
    ("N/A" : String) ≠ "9.9.9" := by
  constructor
  · unfold parsePomRoot depsOfPom
    simp only [parentRoot, noVersionDep, leafEl, XElem.children, descList]
    rfl
  · decide

/-- Concrete instance of C5 on `parentRoot`. -/
theorem parent_version_inheritance_witness :
    parentVersionOf parentRoot = some "9.9.9" ∧
    findChild noVersionDep "version" = none ∧
    depRecordOf (buildProps parentRoot) (parentVersionOf parentRoot) noVersionDep =
      some inheritedRecord ∧
    inheritedRecord.version = some "9.9.9" :=
  ⟨rfl, rfl, rfl,
   (parent_version_inheritance parentRoot noVersionDep inheritedRecord rfl rfl rfl).1⟩

/-- C6 (amended): on the named-argument line
`implementation group: 'com.example', name: 'lib', version: '2.0.0'`,
`parse_gradle_build_file` yields exactly `{com.example, lib, 2.0.0}`;
`parse_gradle_file`'s per-line regex also fires exactly once, but its
`[^:]+` groups run across the quoted arguments, yielding a mangled
record instead. -/
theorem named_argument_line_parsing :
    parseGradleBuildContent namedArgLine = [namedArgRecord] ∧
    parseGradleLine namedArgLine = [mangledRecord] :=
  ⟨rfl, rfl⟩

/-- C6 counterexample: `parse_gradle_file` does not yield
`{com.example, lib, 2.0.0}` on the named-argument line — its single
match captures `groupId = "com.example', name"`, etc. -/
theorem multi_parser_mangles_named_arguments :
    parseGradleLine namedArgLine = [mangledRecord] ∧
    mangledRecord ≠ namedArgRecord :=
  ⟨rfl, by decide⟩

theorem dirScan_some_nonempty (root : String) :
    ∀ files deps, dirScan root files = .ok (some deps) → deps ≠ [] := by
  intro files
  induction files with
  | nil =>
    intro deps h
    cases h
  | cons f rest ih =>
    intro deps h
    rcases f with ⟨name, fa⟩
    unfold dirScan at h
    split at h
    · cases e : parse_maven_pom (root ++ "/" ++ name) fa with
      | error ex => rw [e] at h; cases h
      | ok pr =>
        rw [e] at h
        injection h with h
        split at h
        · cases h
        · injection h with h
          subst h
          rename_i hne
          intro hnil
          rw [hnil] at hne
          exact hne rfl
    · split at h
      · cases e : parse_gradle_build_file (root ++ "/" ++ name) fa with
        | error ex => rw [e] at h; cases h
        | ok pr =>
          rw [e] at h
          injection h with h
          split at h
          · cases h
          · injection h with h
            subst h
            rename_i hne
            intro hnil
            rw [hnil] at hne
            exact hne rfl
      · exact ih deps h

/-- C9: the mapping `generate_dependency_report` returns assigns every
recorded project path a non-empty list of records: the `if deps:` guard
admits an entry only for a non-empty parse, a directory whose descriptor
parses to nothing contributes no entry at all, and hence the renderer's
"No dependencies found." branch cannot fire on this mapping. -/
theorem report_values_nonempty (walk : List (String × List (String × FileAccess)))
    (r : List (String × List DepRecord))
    (h : generate_dependency_report walk = .ok r) :
    ∀ p deps, (p, deps) ∈ r → deps ≠ [] := by
  induction walk generalizing r with
  | nil =>
    intro p deps hm
    injection h with h
    subst h
    cases hm
  | cons d rest ih =>
    intro p deps hm
    rcases d with ⟨root, files⟩
    unfold generate_dependency_report at h
    cases e1 : dirScan root files with
    | error e => rw [e1] at h; cases h
    | ok o =>
      rw [e1] at h
      cases o with
      | none => exact ih r h p deps hm
      | some deps0 =>
        cases e2 : generate_dependency_report rest with
        | error e => rw [e2] at h; cases h
        | ok m =>
          rw [e2] at h
          injection h with h
          subst h
          rcases List.mem_cons.mp hm with heq | hmem
          · injection heq with hp hd
            subst hd
            exact dirScan_some_nonempty root files _ e1
          · exact ih m e2 p deps hmem

/-- Concrete instance of C9: a one-directory walk whose `pom.xml` yields
one record. -/
theorem report_values_nonempty_witness :
    generate_dependency_report exWalk = .ok exReport ∧
    ("repo/mod", [exMavenRecord]) ∈ exReport ∧
    [exMavenRecord] ≠ [] :=
  ⟨rfl, List.mem_singleton.mpr rfl,
   report_values_nonempty exWalk exReport rfl "repo/mod" [exMavenRecord]
     (List.mem_singleton.mpr rfl)⟩

/-- C1 counterexample: a directory listing `build.gradle` before
`pom.xml`, both parseable and non-empty — the report records the gradle
file's dependencies, not the structured manifest's, so descriptor choice
does depend on file-iteration order. -/
theorem gradle_first_in_listing_wins :
    dirScan "r" [("build.gradle", .ok exGradleData), ("pom.xml", .ok exPomData)] =
      .ok (some [exGradleRecord]) ∧
    parseMavenPomRoot exPomRoot = [exMavenRecord] ∧
    exGradleRecord ≠ exMavenRecord :=
  ⟨rfl, rfl, by decide⟩

theorem dirScan_skips_nondescriptors (root : String)
    (pre : List (String × FileAccess)) :
    ∀ rest, pre.all (fun f => !isDescriptorName f.1) = true →
      dirScan root (pre ++ rest) = dirScan root rest := by
  induction pre with
  | nil => intro rest _; rfl
  | cons f t ih =>
    intro rest hpre
    rw [List.all_cons, Bool.and_eq_true] at hpre
    obtain ⟨hf, ht⟩ := hpre
    rcases f with ⟨name, fa⟩
    unfold isDescriptorName at hf
    simp only [Bool.not_eq_true', Bool.or_eq_false_iff] at hf
    obtain ⟨⟨h1, h2⟩, h3⟩ := hf
    show dirScan root ((name, fa) :: (t ++ rest)) = dirScan root rest
    simp only [dirScan, h1, h2, h3, Bool.or_self, Bool.false_eq_true, if_false]
    exact ih rest ht

/-- C1 (amended): in `generate_dependency_report` at most one descriptor
is consulted per directory and the first match in file-iteration order
wins — records come only from `pom.xml` exactly when no descriptor
precedes it in the listing; the multi-repo `main` instead consults every
descriptor, so a directory holding both `pom.xml` and `build.gradle`
contributes the rows of both parsers. -/
theorem first_descriptor_wins (root : String) (pre post : List (String × FileAccess))
    (d : FileAccess)
    (hpre : pre.all (fun f => !isDescriptorName f.1) = true) :
    (dirScan root (pre ++ ("pom.xml", d) :: post) =
      match parse_maven_pom (root ++ "/" ++ "pom.xml") d with
      | .error e => .error e
      | .ok (_, deps) => .ok (if deps.isEmpty then none else some deps)) ∧
    (∀ repo rt d1 d2 m1 r1 m2 r2,
      parse_pom (rt ++ "/" ++ "pom.xml") d1 = .ok (m1, r1) →
      parse_gradle_file (rt ++ "/" ++ "build.gradle") d2 = .ok (m2, r2) →
      scanFilesMulti repo rt [("pom.xml", d1), ("build.gradle", d2)] =
        .ok (r1.map (mkRow repo (rt ++ "/" ++ "pom.xml")) ++
             r2.map (mkRow repo (rt ++ "/" ++ "build.gradle")))) := by
  constructor
  · rw [dirScan_skips_nondescriptors root pre (("pom.xml", d) :: post) hpre]
    rfl
  · intro repo rt d1 d2 m1 r1 m2 r2 h1 h2
    simp [scanFilesMulti, h1, h2]

/-- Concrete instance of C1: `pom.xml` preceded only by a non-descriptor
wins; the multi-repo scan of a directory with both descriptors records
rows from both. -/
theorem first_descriptor_wins_witness :
    ([("notes.txt", FileAccess.missing)].all (fun f => !isDescriptorName f.1) = true) ∧
    dirScan "r" ([("notes.txt", FileAccess.missing)] ++
      ("pom.xml", FileAccess.ok exPomData) :: []) = .ok (some [exMavenRecord]) ∧
    scanFilesMulti "repo" "r"
      [("pom.xml", FileAccess.ok exPomData), ("build.gradle", FileAccess.ok exGradleData)] =
      .ok [mkRow "repo" ("r" ++ "/" ++ "pom.xml") exMavenRecord,
           mkRow "repo" ("r" ++ "/" ++ "build.gradle") exGradleRecord] := by
  have hall : ([("notes.txt", FileAccess.missing)].all
      (fun f => !isDescriptorName f.1) = true) := by decide
  have hpom : parse_pom ("r" ++ "/" ++ "pom.xml") (FileAccess.ok exPomData) =
      .ok ([], [exMavenRecord]) := by
    show Except.ok ([], parsePomRoot exPomRoot) = _
    unfold parsePomRoot depsOfPom
    simp only [exPomRoot, exDep, leafEl, XElem.children, descList]
    rfl
  have hgr : parse_gradle_file ("r" ++ "/" ++ "build.gradle")
      (FileAccess.ok exGradleData) = .ok ([], [exGradleRecord]) := rfl
  refine ⟨hall, ?_, ?_⟩
  · exact (first_descriptor_wins "r" [("notes.txt", FileAccess.missing)] []
      (FileAccess.ok exPomData) hall).1.trans rfl
  · have h := (first_descriptor_wins "r" [("notes.txt", FileAccess.missing)] []
      (FileAccess.ok exPomData) hall).2 "repo" "r" (FileAccess.ok exPomData)
      (FileAccess.ok exGradleData) [] [exMavenRecord] [] [exGradleRecord] hpom hgr
    simpa using h

theorem csvRun_unquoted :
    ∀ (f : List Char), (∀ c ∈ f, ¬c = ',' ∧ ¬c = '\r' ∧ ¬c = '\n') →
    ∀ rest fld row rows,
      csvRun (f ++ rest) .un fld row rows =
        csvRun rest .un (f.reverse ++ fld) row rows := by
  intro f
  induction f with
  | nil =>
    intro _ rest fld row rows
    simp
  | cons c t ih =>
    intro h rest fld row rows
    obtain ⟨h1, h2, h3⟩ := h c (List.mem_cons_self c t)
    show csvRun (c :: (t ++ rest)) .un fld row rows = _
    simp only [csvRun]
    rw [if_neg h1, if_neg h2, if_neg h3,
      ih (fun x hx => h x (List.mem_cons_of_mem c hx)) rest (c :: fld) row rows]
    simp [List.append_assoc]

theorem csvRun_quoted :
    ∀ (f : List Char) rest fld row rows,
      csvRun (escapeQuotes f ++ '"' :: rest) .qu fld row rows =
        csvRun rest .qe (f.reverse ++ fld) row rows := by
  intro f
  induction f with
  | nil =>
    intro rest fld row rows
    simp [escapeQuotes, csvRun]
  | cons c t ih =>
    intro rest fld row rows
    by_cases hc : c = '"'
    · subst hc
      have e1 : escapeQuotes ('"' :: t) ++ '"' :: rest =
          '"' :: '"' :: (escapeQuotes t ++ '"' :: rest) := by
        simp [escapeQuotes]
      rw [e1]
      have e2 : csvRun ('"' :: '"' :: (escapeQuotes t ++ '"' :: rest)) .qu fld row rows =
          csvRun (escapeQuotes t ++ '"' :: rest) .qu ('"' :: fld) row rows := rfl
      rw [e2, ih rest ('"' :: fld) row rows]
      simp [List.append_assoc]
    · have e1 : escapeQuotes (c :: t) ++ '"' :: rest =
          c :: (escapeQuotes t ++ '"' :: rest) := by
        simp [escapeQuotes, hc]
      rw [e1]
      have e2 : csvRun (c :: (escapeQuotes t ++ '"' :: rest)) .qu fld row rows =
          csvRun (escapeQuotes t ++ '"' :: rest) .qu (c :: fld) row rows := by
        simp only [csvRun]
        rw [if_neg hc]
      rw [e2, ih rest (c :: fld) row rows]
      simp [List.append_assoc]

theorem needsQuoting_false_safe (l : List Char) (hq : ¬needsQuoting ⟨l⟩ = true) :
    ∀ c ∈ l, ¬c = ',' ∧ ¬c = '"' ∧ ¬c = '\r' ∧ ¬c = '\n' := by
  intro c hc
  refine ⟨?_, ?_, ?_, ?_⟩ <;>
    · intro he
      subst he
      apply hq
      simp only [needsQuoting, List.any_eq_true]
      exact ⟨_, hc, by decide⟩

theorem csvRun_field_comma (f : String) :
    ∀ rest row rows,
      csvRun (renderFieldChars f ++ ',' :: rest) .sf [] row rows =
        csvRun rest .sf [] (f :: row) rows := by
  rcases f with ⟨l⟩
  intro rest row rows
  by_cases hq : needsQuoting ⟨l⟩ = true
  · have e1 : renderFieldChars ⟨l⟩ ++ ',' :: rest =
        '"' :: (escapeQuotes l ++ '"' :: ',' :: rest) := by
      simp [renderFieldChars, hq, List.append_assoc]
    rw [e1]
    have e2 : csvRun ('"' :: (escapeQuotes l ++ '"' :: ',' :: rest)) .sf [] row rows =
        csvRun (escapeQuotes l ++ '"' :: ',' :: rest) .qu [] row rows := rfl
    rw [e2, csvRun_quoted l (',' :: rest) [] row rows]
    have e3 : csvRun (',' :: rest) .qe (l.reverse ++ []) row rows =
        csvRun rest .sf [] (String.mk (l.reverse ++ []).reverse :: row) rows := rfl
    rw [e3]
    simp
  · have hsafe := needsQuoting_false_safe l hq
    have er : renderFieldChars ⟨l⟩ = l := by
      simp [renderFieldChars, hq]
    rw [er]
    cases l with
    | nil => rfl
    | cons c ts =>
      obtain ⟨hcm, hqu, hcr, hnl⟩ := hsafe c (List.mem_cons_self c ts)
      have e2 : csvRun ((c :: ts) ++ ',' :: rest) .sf [] row rows =
          csvRun (ts ++ ',' :: rest) .un [c] row rows := by
        simp only [List.cons_append, csvRun]
        rw [if_neg hqu, if_neg hcm, if_neg hcr, if_neg hnl]
        rfl
      rw [e2, csvRun_unquoted ts
        (fun x hx => by
          obtain ⟨a, _, b, d⟩ := hsafe x (List.mem_cons_of_mem c hx)
          exact ⟨a, b, d⟩) (',' :: rest) [c] row rows]
      have e3 : csvRun (',' :: rest) .un (ts.reverse ++ [c]) row rows =
          csvRun rest .sf [] (String.mk (ts.reverse ++ [c]).reverse :: row) rows := rfl
      rw [e3]
      simp

theorem csvRun_field_crlf (f : String) :
    ∀ rest row rows,
      csvRun (renderFieldChars f ++ '\r' :: '\n' :: rest) .sf [] row rows =
        csvRun rest .sf [] [] (((f :: row).reverse) :: rows) := by
  rcases f with ⟨l⟩
  intro rest row rows
  by_cases hq : needsQuoting ⟨l⟩ = true
  · have e1 : renderFieldChars ⟨l⟩ ++ '\r' :: '\n' :: rest =
        '"' :: (escapeQuotes l ++ '"' :: '\r' :: '\n' :: rest) := by
      simp [renderFieldChars, hq, List.append_assoc]
    rw [e1]
    have e2 : csvRun ('"' :: (escapeQuotes l ++ '"' :: '\r' :: '\n' :: rest))
        .sf [] row rows =
        csvRun (escapeQuotes l ++ '"' :: '\r' :: '\n' :: rest) .qu [] row rows := rfl
    rw [e2, csvRun_quoted l ('\r' :: '\n' :: rest) [] row rows]
    have e3 : csvRun ('\r' :: '\n' :: rest) .qe (l.reverse ++ []) row rows =
        csvRun rest .sf [] []
          (csvPushRow rows row (l.reverse ++ [])) := rfl
    rw [e3]
    simp [csvPushRow]
  · have hsafe := needsQuoting_false_safe l hq
    have er : renderFieldChars ⟨l⟩ = l := by
      simp [renderFieldChars, hq]
    rw [er]
    cases l with
    | nil => simp [csvRun, csvPushRow]
    | cons c ts =>
      obtain ⟨hcm, hqu, hcr, hnl⟩ := hsafe c (List.mem_cons_self c ts)
      have e2 : csvRun ((c :: ts) ++ '\r' :: '\n' :: rest) .sf [] row rows =
          csvRun (ts ++ '\r' :: '\n' :: rest) .un [c] row rows := by
        simp only [List.cons_append, csvRun]
        rw [if_neg hqu, if_neg hcm, if_neg hcr, if_neg hnl]
        rfl
      rw [e2, csvRun_unquoted ts
        (fun x hx => by
          obtain ⟨a, _, b, d⟩ := hsafe x (List.mem_cons_of_mem c hx)
          exact ⟨a, b, d⟩) ('\r' :: '\n' :: rest) [c] row rows]
      have e3 : csvRun ('\r' :: '\n' :: rest) .un (ts.reverse ++ [c]) row rows =
          csvRun rest .sf [] [] (csvPushRow rows row (ts.reverse ++ [c])) := rfl
      rw [e3]
      simp [csvPushRow]

theorem csvRun_row :
    ∀ (fs : List String), fs ≠ [] → ∀ rest row rows,
      csvRun (renderRowChars fs ++ rest) .sf [] row rows =
        csvRun rest .sf [] [] ((row.reverse ++ fs) :: rows) := by
  intro fs
  induction fs with
  | nil => intro h; exact absurd rfl h
  | cons f t ih =>
    intro _ rest row rows
    cases t with
    | nil =>
      have e : renderRowChars [f] ++ rest = renderFieldChars f ++ '\r' :: '\n' :: rest := by
        simp [renderRowChars, List.append_assoc]
      rw [e, csvRun_field_crlf f rest row rows]
      simp
    | cons f2 t2 =>
      have e : renderRowChars (f :: f2 :: t2) ++ rest =
          renderFieldChars f ++ ',' :: (renderRowChars (f2 :: t2) ++ rest) := by
        simp [renderRowChars, List.append_assoc]
      rw [e, csvRun_field_comma f (renderRowChars (f2 :: t2) ++ rest) row rows,
        ih (by simp) rest (f :: row) rows]
      simp [List.append_assoc]

theorem csvRun_table :
    ∀ (rss : List (List String)), (∀ r ∈ rss, r ≠ []) → ∀ rows,
      csvRun (renderTable rss) .sf [] [] rows = some (rows.reverse ++ rss) := by
  intro rss
  induction rss with
  | nil =>
    intro _ rows
    simp [renderTable, csvRun]
  | cons r rss ih =>
    intro h rows
    have e : renderTable (r :: rss) = renderRowChars r ++ renderTable rss := by
      simp [renderTable]
    rw [e, csvRun_row r (h r (List.mem_cons_self r rss)) (renderTable rss) [] rows,
      ih (fun x hx => h x (List.mem_cons_of_mem r hx))
        ((([] : List String).reverse ++ r) :: rows)]
    simp

/-- C8: rendering a collection of rows to the tabular sink and re-reading
the text yields the header and then exactly the original rows' cells, so
the multiset of (repository, group, artifact, version) tuples is that of
the original collection, order aside (a `None` cell is written as the
empty string, exactly as `csv.writer` does). -/
theorem csv_roundtrip (rows : List CSVRow) :
    parseCSV (renderReport rows) = some (csvColumns :: rows.map rowCells) ∧
    Multiset.ofList ((rows.map rowCells).map tupleOfCells) =
      Multiset.ofList (rows.map rowTuple) := by
  constructor
  · have hne : ∀ r ∈ csvColumns :: rows.map rowCells, r ≠ [] := by
      intro r hr
      rcases List.mem_cons.mp hr with h | hm
      · subst h
        simp [csvColumns]
      · obtain ⟨x, _, hx⟩ := List.mem_map.mp hm
        rw [← hx]
        simp [rowCells]
    unfold parseCSV renderReport
    rw [csvRun_table (csvColumns :: rows.map rowCells) hne []]
    rfl
  · rw [List.map_map]
    have h : tupleOfCells ∘ rowCells = rowTuple := funext fun r => rfl
    rw [h]
